import Mathlib

/-!
Verification of the pytest-gui streaming test-result protocol and test model.

This development shallowly embeds the relevant parts of the repository:

* `runner.py` — the frame decoder / process supervisor (`Runner.poll`,
  `parse_status_and_error`);
* `model.py` — the hierarchical test model (`TestMethod`/`TestCase`/
  `TestModule` active-flag cascade, and `Project.confirm_exists` /
  `Project.refresh` / `_purge` lifecycle);
* `pipes.py` — the frame encoder (`PipedTestResult.startTest` / `addError`);
* `events.py` — the `EventSource.emit` publish/subscribe mixin.

Conventions of the embedding:

* Python exceptions are modelled with `Except PyError`; a `.error` value
  means the corresponding Python code raises at that point, in the same
  order in which the Python expressions are evaluated.
* Python floats (`time.time()` values, durations) are modelled as `Rat`;
  Python `int()` truncation toward zero is `ratTrunc`.
* A raw stdout line is abstracted into the `Line` inductive: one of the
  three single-byte markers, a line that parses as a JSON object (already
  presented as its parsed `Frame`), or a non-marker line that fails JSON
  parsing (`malformed`).  A JSON object is modelled as a `Frame` record of
  optional fields: a missing field models a `KeyError` on `frame['key']`
  and `none` from `frame.get('key')`.
* Mutation of the `Runner`/model objects becomes explicit state passing;
  calls to `emit` become entries in a returned event list.
-/

/-- Python exceptions that the embedded code can raise. -/
inductive PyError where
  | indexError
  | keyError
  | typeError
  | valueError
  | unboundLocal
  | attributeError
  deriving DecidableEq, Repr

/-- The three single-byte protocol markers of `pipes.py`:
`PipedTestRunner.START_TEST_RESULTS` (0x02), `PipedTestResult.RESULT_SEPARATOR`
(0x1F) and `PipedTestRunner.END_TEST_RESULTS` (0x03). -/
inductive Marker where
  | startResults
  | resultSep
  | endResults
  deriving DecidableEq, Repr

/-- A JSON object on the wire, restricted to the fields `runner.py` reads.
A field that is absent from the object is `none`. -/
structure Frame where
  path : Option String := none
  start_time : Option Rat := none
  status : Option String := none
  end_time : Option Rat := none
  description : Option String := none
  output : Option String := none
  error : Option String := none
  deriving DecidableEq, Repr

/-- One line drained from the stdout queue, as `Runner.poll` classifies it:
a marker line, a line that parses as a JSON object, or a non-marker line
that raises `ValueError` in `json.loads`. -/
inductive Line where
  | marker (m : Marker)
  | json (f : Frame)
  | malformed (s : String)
  deriving DecidableEq, Repr

namespace TestMethod

/-- From `model.py` line 37. -/
def STATUS_PASS : Nat := 100
/-- From `model.py` line 39. -/
def STATUS_SKIP : Nat := 200
/-- From `model.py` line 41. -/
def STATUS_EXPECTED_FAIL : Nat := 300
/-- From `model.py` line 43. -/
def STATUS_UNEXPECTED_SUCCESS : Nat := 400
/-- From `model.py` line 45. -/
def STATUS_FAIL : Nat := 500
/-- From `model.py` line 47. -/
def STATUS_ERROR : Nat := 600

end TestMethod

/-- From `runner.py` `parse_status_and_error(post)`, lines 36-61.  Reading
`post['status']` on an object with no `status` field raises `KeyError`;
a status value outside the six known codes leaves the local variables
unassigned, so the final `return status, error` raises `UnboundLocalError`;
for status `'s'` with no `error` field, `'Skipped: ' + None` raises
`TypeError`. -/
def parse_status_and_error (post : Frame) : Except PyError (Nat × Option String) :=
  match post.status with
  | none => .error .keyError
  | some s =>
    if s = "OK" then .ok (TestMethod.STATUS_PASS, none)
    else if s = "s" then
      match post.error with
      | some e => .ok (TestMethod.STATUS_SKIP, some ("Skipped: " ++ e))
      | none => .error .typeError
    else if s = "F" then .ok (TestMethod.STATUS_FAIL, post.error)
    else if s = "x" then .ok (TestMethod.STATUS_EXPECTED_FAIL, post.error)
    else if s = "u" then .ok (TestMethod.STATUS_UNEXPECTED_SUCCESS, none)
    else if s = "E" then .ok (TestMethod.STATUS_ERROR, post.error)
    else .error .unboundLocal

/-- Python `int()` applied to a rational value: truncation toward zero
(`q.num` and `q.den` are in lowest terms with positive denominator, and
`Int.div` is T-division). -/
def ratTrunc (q : Rat) : Int := q.num.tdiv (q.den : Int)

/-- The remaining-time formatting chain of `Runner.poll`, `runner.py`
lines 235-244. -/
def format_remaining (remaining_time : Rat) : String :=
  if remaining_time > 4800 then toString (ratTrunc (remaining_time / 2400)) ++ " hours"
  else if remaining_time > 2400 then toString (ratTrunc (remaining_time / 2400)) ++ " hour"
  else if remaining_time > 120 then toString (ratTrunc (remaining_time / 60)) ++ " mins"
  else if remaining_time > 60 then toString (ratTrunc (remaining_time / 60)) ++ " min"
  else toString (ratTrunc remaining_time) ++ "s"

/-- The remaining-time estimate of `Runner.poll`, `runner.py` lines 232-244:
`total_duration = end_time - self.start_time`,
`time_per_test = total_duration / completed_count`,
`remaining_time = (total_count - completed_count) * time_per_test`,
then formatted by the `format_remaining` chain.  `completed` is the count
after the increment on line 214, `startFirst` is `self.start_time` (the
start time of the first completed test) and `endLast` the current record's
end time. -/
def remaining_estimate (total completed : Nat) (startFirst endLast : Rat) : String :=
  format_remaining (((total : Rat) - (completed : Rat)) * ((endLast - startFirst) / (completed : Rat)))

/-- The events `Runner.poll` emits, plus the mutations it performs on the
current `TestMethod` node (`.description` assignment and `set_result`,
`runner.py` lines 220-227), recorded as a `set_result` entry. -/
inductive Event where
  | test_status_update (update : Line)
  | test_start (test_path : String)
  | set_result (path : String) (status : Nat) (output : Option String)
      (error : Option String) (duration : Rat) (description : String)
  | test_end (test_path : String) (result : Nat) (remaining_time : String)
  | suit_end
  | suite_end (error : Option String)
  | suite_error (error : String)
  deriving DecidableEq, Repr

/-- The mutable state of a `Runner` instance that `poll` reads and writes
(`runner.py` lines 104-124).  `current_test` holds the identity (dotted
path) of the `TestMethod` node returned by `project.confirm_exists`, or
`none` when `self.current_test is None`. -/
structure RunnerState where
  buffer : Option (List Line)
  current_test : Option String
  error_buffer : List String
  start_time : Option Rat
  total_count : Nat
  completed_count : Nat
  result_count : List (Nat × Nat)
  deriving DecidableEq, Repr

/-- The state of a freshly constructed `Runner` (`runner.py` `__init__`,
lines 104-124): no current test, `buffer = None`, empty error buffer,
no start time, `total_count = count`, zero completed, empty counts. -/
def Runner.initial (count : Nat) : RunnerState :=
  { buffer := none
    current_test := none
    error_buffer := []
    start_time := none
    total_count := count
    completed_count := 0
    result_count := [] }

/-- From `self.result_count.setdefault(status, 0)` followed by
`self.result_count[status] += 1` (`runner.py` lines 247-248), on the
association list modelling the dict. -/
def bumpCount : List (Nat × Nat) → Nat → List (Nat × Nat)
  | [], s => [(s, 1)]
  | (k, v) :: t, s => if k = s then (k, v + 1) :: t else (k, v) :: bumpCount t s

/-- The runner-side view of `Project.confirm_exists(path)` (`model.py`
lines 484-513) as used from `Runner.poll` line 289: a label with fewer
than two dot-separated parts yields `None`; otherwise the (created or
existing) `TestMethod` node is returned, identified here by its dotted
path. -/
def confirmExistsPath (label : String) : Option String :=
  if (label.splitOn ".").length < 2 then none else some label

/-- The sub-test aggregation loop of `Runner.poll`, `runner.py` lines
203-211: starting from `status = STATUS_PASS` and `error = ''`, each
buffered line is parsed as JSON and fed to `parse_status_and_error`; a
strictly greater sub-status replaces the accumulator, and each truthy
(non-`None`, non-empty) sub-error is appended followed by a blank line.
The last parsed object is returned as the loop's final `post` binding
(`none` when the loop body never ran, modelling the unbound local). -/
def subtestLoop : List Line → Nat → String → Option Frame →
    Except PyError (Nat × String × Option Frame)
  | [], status, error, post => .ok (status, error, post)
  | l :: ls, status, error, _ =>
    match l with
    | .json f =>
      match parse_status_and_error f with
      | .error e => .error e
      | .ok (subtest_status, subtest_error) =>
        let status1 := if subtest_status > status then subtest_status else status
        let error1 := match subtest_error with
          | some e => if e = "" then error else error ++ e ++ "\n\n"
          | none => error
        subtestLoop ls status1 error1 (some f)
    | .marker _ => .error .valueError
    | .malformed _ => .error .valueError

/-- The record-flush step of `Runner.poll` (`runner.py` lines 193-255):
run when a marker line arrives and `self.buffer` is not `None`.  Parses
`buffer[0]` as the start frame (empty buffer: `IndexError`; non-JSON
line: `ValueError`), then either the single-finish-frame branch
(`len(buffer) == 2`) or the sub-test aggregation branch; then increments
`completed_count`, reads the start/end times (missing keys: `KeyError`;
in the aggregation branch with no sub-line the loop variable `post` is
unbound: `UnboundLocalError`), assigns `current_test.description`
(`current_test = None`: `AttributeError`), records the result, updates
the remaining-time estimate and counts, emits `test_end`, and resets
`current_test` and the buffer. -/
def recordFlush (st : RunnerState) (buf : List Line) :
    Except PyError (RunnerState × List Event) :=
  match buf with
  | [] => .error .indexError
  | hd :: tl =>
    match hd with
    | .marker _ => .error .valueError
    | .malformed _ => .error .valueError
    | .json pre =>
      let parsed : Except PyError (Nat × Option String × Option Frame) :=
        if tl.length = 1 then
          match tl with
          | [.json f] =>
            match parse_status_and_error f with
            | .error e => .error e
            | .ok (status, error) => .ok (status, error, some f)
          | _ => .error .valueError
        else
          match subtestLoop tl TestMethod.STATUS_PASS "" none with
          | .error e => .error e
          | .ok (status, error, post) => .ok (status, some error, post)
      match parsed with
      | .error e => .error e
      | .ok (status, error, post) =>
        let completed := st.completed_count + 1
        match pre.start_time with
        | none => .error .keyError
        | some stime =>
          match post with
          | none => .error .unboundLocal
          | some postf =>
            match postf.end_time with
            | none => .error .keyError
            | some etime =>
              match postf.description with
              | none => .error .keyError
              | some desc =>
                match st.current_test with
                | none => .error .attributeError
                | some ctPath =>
                  let runStart := st.start_time.getD stime
                  let remaining := remaining_estimate st.total_count completed runStart etime
                  .ok
                    ({ st with
                        completed_count := completed
                        start_time := some runStart
                        result_count := bumpCount st.result_count status
                        current_test := none
                        buffer := some [] },
                      [Event.set_result ctPath status postf.output error (etime - stime) desc,
                        Event.test_end ctPath status remaining])

/-- One iteration of the line-processing loop of `Runner.poll`
(`runner.py` lines 182-290).  Returns the new state, the emitted events,
the updated `finished` flag, and whether the loop performed the early
`return True` of line 288 (malformed first line of a record). -/
def processLine (st : RunnerState) (finished : Bool) (line : Line) :
    Except PyError (RunnerState × List Event × Bool × Bool) :=
  match line with
  | .marker m =>
    match st.buffer with
    | none => .ok ({ st with buffer := some [] }, [], finished, false)
    | some buf =>
      match recordFlush st buf with
      | .error e => .error e
      | .ok (st1, evs) =>
        if m = .endResults then .ok ({ st1 with buffer := none }, evs, true, false)
        else .ok (st1, evs, finished, false)
  | .json f =>
    match st.buffer with
    | none => .ok (st, [Event.test_status_update (.json f)], finished, false)
    | some buf =>
      let st1 := { st with buffer := some (buf ++ [Line.json f]) }
      match st1.current_test with
      | some _ => .ok (st1, [], finished, false)
      | none =>
        match f.path with
        | none => .error .keyError
        | some p =>
          .ok ({ st1 with current_test := confirmExistsPath p },
            [Event.test_start p], finished, false)
  | .malformed s =>
    match st.buffer with
    | none => .ok (st, [Event.test_status_update (.malformed s)], finished, false)
    | some buf =>
      let st1 := { st with buffer := some (buf ++ [Line.malformed s]) }
      match st1.current_test with
      | some _ => .ok (st1, [], finished, false)
      | none => .ok (st1, [Event.suit_end], finished, true)

/-- The `for line in lines` loop of `Runner.poll`.  Stops early (fourth
component `true`) when a malformed record head triggers the `return True`
of `runner.py` line 288. -/
def processLines (st : RunnerState) (finished : Bool) :
    List Line → Except PyError (RunnerState × List Event × Bool × Bool)
  | [] => .ok (st, [], finished, false)
  | l :: ls =>
    match processLine st finished l with
    | .error e => .error e
    | .ok (st1, evs1, fin1, true) => .ok (st1, evs1, fin1, true)
    | .ok (st1, evs1, fin1, false) =>
      match processLines st1 fin1 ls with
      | .error e => .error e
      | .ok (st2, evs2, fin2, early) => .ok (st2, evs1 ++ evs2, fin2, early)

/-- From `Runner.poll` (`runner.py` lines 147-311).  `lines` are the stdout
lines drained this poll, `errLines` the stderr lines drained this poll,
and `procExited` the value of `self.proc.poll() is not None`.  The final
`Bool` is `poll`'s return value (`true` = keep polling). -/
def Runner.poll (st : RunnerState) (lines : List Line) (errLines : List String)
    (procExited : Bool) : Except PyError (RunnerState × List Event × Bool) :=
  let st1 := { st with error_buffer := st.error_buffer ++ errLines }
  let stopped := procExited
  match processLines st1 false lines with
  | .error e => .error e
  | .ok (st2, evs, finished, early) =>
    if early then .ok (st2, evs, true)
    else if finished then
      if st2.error_buffer.isEmpty then .ok (st2, evs ++ [Event.suite_end none], false)
      else .ok (st2, evs ++ [Event.suite_end (some (String.intercalate "\n" st2.error_buffer))], false)
    else if stopped then
      if st2.error_buffer.isEmpty then
        .ok (st2, evs ++ [Event.suite_error "Test output ended unexpectedly"], false)
      else .ok (st2, evs ++ [Event.suite_error (String.intercalate "\n" st2.error_buffer)], false)
    else .ok (st2, evs, true)

/-! ## Specification-side characterizations of the aggregation loop -/

/-- Python truthiness of the `subtest_error` value in `if subtest_error:`:
`None` and the empty string are falsy. -/
def truthyError : Option String → Option String
  | some e => if e = "" then none else some e
  | none => none

/-- The truthy sub-errors of a list of parsed finish frames, in order. -/
def errsOf (rs : List (Nat × Option String)) : List String :=
  rs.filterMap (fun r => truthyError r.2)

/-- Concatenation of error texts, each followed by a blank-line separator
(the accumulation `error += subtest_error + '\n\n'` of `runner.py` line 211). -/
def joinErrs : List String → String
  | [] => ""
  | e :: es => e ++ "\n\n" ++ joinErrs es

/-- The status fold of the aggregation loop: starting from `s0`, replace the
accumulator by any strictly greater sub-status. -/
def maxStatus (rs : List (Nat × Option String)) (s0 : Nat) : Nat :=
  rs.foldl (fun a r => if r.1 > a then r.1 else a) s0

theorem maxStatus_nil (s0 : Nat) : maxStatus [] s0 = s0 := rfl

theorem maxStatus_cons (r : Nat × Option String) (rs : List (Nat × Option String)) (s0 : Nat) :
    maxStatus (r :: rs) s0 = maxStatus rs (if r.1 > s0 then r.1 else s0) := rfl

theorem maxStatus_ge_init (rs : List (Nat × Option String)) (s0 : Nat) :
    s0 ≤ maxStatus rs s0 := by
  induction rs generalizing s0 with
  | nil => exact Nat.le_refl s0
  | cons r rs ih =>
    rw [maxStatus_cons]
    refine Nat.le_trans ?_ (ih _)
    split
    · omega
    · exact Nat.le_refl s0

theorem maxStatus_ge (rs : List (Nat × Option String)) (s0 : Nat) :
    ∀ r ∈ rs, r.1 ≤ maxStatus rs s0 := by
  induction rs generalizing s0 with
  | nil => intro r hr; cases hr
  | cons a rs ih =>
    intro r hr
    rw [maxStatus_cons]
    rcases List.mem_cons.1 hr with h | h
    · subst h
      refine Nat.le_trans ?_ (maxStatus_ge_init rs _)
      split <;> omega
    · exact ih _ r h

theorem maxStatus_mem (rs : List (Nat × Option String)) (s0 : Nat) :
    maxStatus rs s0 = s0 ∨ ∃ r ∈ rs, r.1 = maxStatus rs s0 := by
  induction rs generalizing s0 with
  | nil => exact Or.inl rfl
  | cons a rs ih =>
    rw [maxStatus_cons]
    by_cases h : a.1 > s0
    · rw [if_pos h]
      rcases ih a.1 with h1 | ⟨r, hr, hr1⟩
      · exact Or.inr ⟨a, List.mem_cons_self a rs, h1.symm⟩
      · exact Or.inr ⟨r, List.mem_cons_of_mem a hr, hr1⟩
    · rw [if_neg h]
      rcases ih s0 with h1 | ⟨r, hr, hr1⟩
      · exact Or.inl h1
      · exact Or.inr ⟨r, List.mem_cons_of_mem a hr, hr1⟩

/-- The aggregation loop, characterized on a list of frames that all parse
successfully: the status accumulator computes the `maxStatus` fold, the
error accumulator appends the truthy sub-errors each followed by a blank
line, and the final `post` binding is the last frame (or the initial value
when the list is empty). -/
theorem subtestLoop_spec :
    ∀ (fs : List Frame) (rs : List (Nat × Option String)) (s0 : Nat) (e0 : String)
      (p0 : Option Frame),
      fs.map parse_status_and_error = rs.map Except.ok →
      subtestLoop (fs.map Line.json) s0 e0 p0 =
        .ok (maxStatus rs s0, e0 ++ joinErrs (errsOf rs),
          fs.foldl (fun _ f => some f) p0) := by
  intro fs
  induction fs with
  | nil =>
    intro rs s0 e0 p0 h
    cases rs with
    | nil => simp [subtestLoop, maxStatus_nil, errsOf, joinErrs]
    | cons r rs => simp at h
  | cons f fs ih =>
    intro rs s0 e0 p0 h
    cases rs with
    | nil => simp at h
    | cons r rs =>
      simp only [List.map_cons, List.cons.injEq] at h
      obtain ⟨hf, hfs⟩ := h
      simp only [List.map_cons, subtestLoop, hf]
      rw [ih rs _ _ (some f) hfs, maxStatus_cons]
      have herr : (match r.2 with
          | some e => if e = "" then e0 else e0 ++ e ++ "\n\n"
          | none => e0) ++ joinErrs (errsOf rs)
          = e0 ++ joinErrs (errsOf (r :: rs)) := by
        have : errsOf (r :: rs) = match truthyError r.2 with
            | some e => e :: errsOf rs
            | none => errsOf rs := by
          simp only [errsOf, List.filterMap_cons]
          cases truthyError r.2 <;> rfl
        rw [this]
        cases hr2 : r.2 with
        | none => simp [truthyError]
        | some e =>
          by_cases he : e = ""
          · simp [truthyError, he]
          · simp only [truthyError, if_neg he, joinErrs]
            rw [← String.append_assoc, ← String.append_assoc]
      rw [herr]
      rfl

theorem foldl_some_last {α : Type} :
    ∀ (l : List α) (a : α) (p0 : Option α), l.getLast? = some a →
      l.foldl (fun _ x => some x) p0 = some a := by
  intro l
  induction l with
  | nil => intro a p0 h; cases h
  | cons x l ih =>
    intro a p0 h
    cases l with
    | nil => simp at h; simp [h]
    | cons y l =>
      rw [List.getLast?_cons_cons] at h
      simpa using ih a (some x) h

/-- The record-flush step on a buffer `[start, finish1, ..., finishN]` with
`N ≠ 1` whose finish frames all parse: full characterization of the new
state and emitted events.  The recorded status is the `maxStatus` fold from
`STATUS_PASS`, the recorded error the blank-line-separated concatenation of
the truthy sub-errors (with a trailing separator), output and times come
from the last finish frame. -/
theorem recordFlush_spec (st : RunnerState) (pre lastf : Frame) (fs : List Frame)
    (rs : List (Nat × Option String)) (ctPath : String) (stime etime : Rat) (desc : String)
    (hct : st.current_test = some ctPath)
    (hlen : fs.length ≠ 1)
    (hmap : fs.map parse_status_and_error = rs.map Except.ok)
    (hlast : fs.getLast? = some lastf)
    (hstime : pre.start_time = some stime)
    (hetime : lastf.end_time = some etime)
    (hdesc : lastf.description = some desc) :
    recordFlush st (Line.json pre :: fs.map Line.json) =
      .ok ({ st with
              completed_count := st.completed_count + 1
              start_time := some (st.start_time.getD stime)
              result_count := bumpCount st.result_count (maxStatus rs TestMethod.STATUS_PASS)
              current_test := none
              buffer := some [] },
        [Event.set_result ctPath (maxStatus rs TestMethod.STATUS_PASS) lastf.output
            (some (joinErrs (errsOf rs))) (etime - stime) desc,
          Event.test_end ctPath (maxStatus rs TestMethod.STATUS_PASS)
            (remaining_estimate st.total_count (st.completed_count + 1)
              (st.start_time.getD stime) etime)]) := by
  have hloop := subtestLoop_spec fs rs TestMethod.STATUS_PASS "" none hmap
  have hfold := foldl_some_last fs lastf none hlast
  simp only [recordFlush]
  rw [List.length_map, if_neg hlen, hloop, hfold]
  have hjoin : "" ++ joinErrs (errsOf rs) = joinErrs (errsOf rs) := by
    simp
  rw [hjoin]
  simp [hstime, hetime, hdesc, hct]

/-! ## Concrete frames used in witnesses and counterexamples -/

/-- A start frame for test `m.C.t1` with start time 1. -/
def preW : Frame := { path := some "m.C.t1", start_time := some 1 }

/-- A failing finish frame with error text `a`. -/
def postFa : Frame := { status := some "F", end_time := some 2, description := some "d", error := some "a" }

/-- A failing finish frame with error text `b`. -/
def postFb : Frame := { status := some "F", end_time := some 3, description := some "d", error := some "b" }

/-- Claim C1 (amended): for a complete record whose buffer holds a start
frame followed by two or more finish frames that all parse, the flush on a
marker line records on the current test the status given by the
aggregation fold from `STATUS_PASS`, which is an upper bound of all
sub-statuses and is either a sub-status or `STATUS_PASS` (the maximum
severity, PASS when no sub-result reports otherwise), and records as error
the concatenation of all truthy (non-`None`, non-empty) sub-errors, each
followed by a blank-line separator — including a trailing separator after
the last one, which is where the original claim's wording (errors merely
"separated by" blank lines) fails. -/
theorem C1_aggregate_status_and_error (st : RunnerState) (pre lastf : Frame)
    (fs : List Frame) (rs : List (Nat × Option String)) (ctPath : String)
    (stime etime : Rat) (desc : String)
    (hct : st.current_test = some ctPath)
    (hlen : 2 ≤ fs.length)
    (hmap : fs.map parse_status_and_error = rs.map Except.ok)
    (hlast : fs.getLast? = some lastf)
    (hstime : pre.start_time = some stime)
    (hetime : lastf.end_time = some etime)
    (hdesc : lastf.description = some desc) :
    recordFlush st (Line.json pre :: fs.map Line.json) =
      .ok ({ st with
              completed_count := st.completed_count + 1
              start_time := some (st.start_time.getD stime)
              result_count := bumpCount st.result_count (maxStatus rs TestMethod.STATUS_PASS)
              current_test := none
              buffer := some [] },
        [Event.set_result ctPath (maxStatus rs TestMethod.STATUS_PASS) lastf.output
            (some (joinErrs (errsOf rs))) (etime - stime) desc,
          Event.test_end ctPath (maxStatus rs TestMethod.STATUS_PASS)
            (remaining_estimate st.total_count (st.completed_count + 1)
              (st.start_time.getD stime) etime)]) ∧
    (∀ r ∈ rs, r.1 ≤ maxStatus rs TestMethod.STATUS_PASS) ∧
    (maxStatus rs TestMethod.STATUS_PASS = TestMethod.STATUS_PASS ∨
      ∃ r ∈ rs, r.1 = maxStatus rs TestMethod.STATUS_PASS) :=
  ⟨recordFlush_spec st pre lastf fs rs ctPath stime etime desc hct (by omega) hmap hlast
      hstime hetime hdesc,
    maxStatus_ge rs TestMethod.STATUS_PASS,
    maxStatus_mem rs TestMethod.STATUS_PASS⟩

/-- Witness for C1: a record with two failing finish frames, evaluated. -/
theorem C1_aggregate_witness :
    recordFlush { Runner.initial 5 with buffer := some [], current_test := some "m.C.t1" }
        [Line.json preW, Line.json postFa, Line.json postFb] =
      .ok ({ Runner.initial 5 with
              buffer := some []
              completed_count := 1
              start_time := some 1
              result_count := [(500, 1)] },
        [Event.set_result "m.C.t1" 500 none (some "a\n\nb\n\n") 2 "d",
          Event.test_end "m.C.t1" 500 "8s"]) := by
  have h := C1_aggregate_status_and_error
    { Runner.initial 5 with buffer := some [], current_test := some "m.C.t1" }
    preW postFb [postFa, postFb] [(500, some "a"), (500, some "b")] "m.C.t1" 1 3 "d"
    rfl (by decide) rfl rfl rfl rfl rfl
  with_unfolding_all exact h.1

/-- Counterexample to C1 as stated: with sub-errors `a` and `b`, the
recorded error is `a\n\nb\n\n` (each sub-error followed by a blank line),
not the plain blank-line-separated concatenation `a\n\nb`. -/
theorem C1_counterexample_trailing_separator :
    recordFlush { Runner.initial 5 with buffer := some [], current_test := some "m.C.t1" }
        [Line.json preW, Line.json postFa, Line.json postFb] =
      .ok ({ Runner.initial 5 with
              buffer := some []
              completed_count := 1
              start_time := some 1
              result_count := [(500, 1)] },
        [Event.set_result "m.C.t1" 500 none (some "a\n\nb\n\n") 2 "d",
          Event.test_end "m.C.t1" 500 "8s"]) ∧
    "a\n\nb\n\n" ≠ String.intercalate "\n\n" ["a", "b"] := by
  refine ⟨by with_unfolding_all rfl, by decide⟩

/-- Claim C2: when a non-marker line arrives while the record buffer is
active (`buffer` is not `None`) and no test is currently being reported
(`current_test is None`), and the line fails to parse as JSON, `poll`
swallows the `ValueError` (the result is `.ok`, never `.error`), emits the
`suit_end` termination event of `runner.py` line 287, abandons the
remaining drained lines (`rest` does not influence the result), and
returns `True` via the early `return` of line 288. -/
theorem C2_malformed_line_swallowed (st : RunnerState) (buf : List Line) (s : String)
    (rest : List Line) (errLines : List String) (procExited : Bool)
    (hbuf : st.buffer = some buf) (hct : st.current_test = none) :
    Runner.poll st (Line.malformed s :: rest) errLines procExited =
      .ok ({ st with
              buffer := some (buf ++ [Line.malformed s])
              error_buffer := st.error_buffer ++ errLines },
        [Event.suit_end], true) := by
  simp [Runner.poll, processLines, processLine, hbuf, hct]

/-- Witness for C2: a concrete malformed line in an active record. -/
theorem C2_witness :
    Runner.poll { Runner.initial 1 with buffer := some [] }
        [Line.malformed "zzz", Line.json preW] ["err"] true =
      .ok ({ Runner.initial 1 with
              buffer := some [Line.malformed "zzz"]
              error_buffer := ["err"] },
        [Event.suit_end], true) := by
  have h := C2_malformed_line_swallowed { Runner.initial 1 with buffer := some [] }
    [] "zzz" [Line.json preW] ["err"] true rfl rfl
  exact h

/-- Claim C3: when the child process has exited (`procExited = true`) and
line processing completes without the malformed-line early return, `poll`
ends with `suite_error` carrying the joined stderr text (or the generic
message `Test output ended unexpectedly` when no stderr was captured) and
returns `False` — unless the end-of-results marker was seen (`finished`),
in which case it ends with `suite_end` (with the stderr text when any was
captured) and returns `False`. -/
theorem C3_exit_without_end_marker (st st2 : RunnerState) (lines : List Line)
    (errLines : List String) (evs : List Event) (finished : Bool)
    (hrun : processLines { st with error_buffer := st.error_buffer ++ errLines } false lines =
      .ok (st2, evs, finished, false)) :
    Runner.poll st lines errLines true =
      (if finished then
        .ok (st2, evs ++ [Event.suite_end (if st2.error_buffer.isEmpty then none
            else some (String.intercalate "\n" st2.error_buffer))], false)
      else
        .ok (st2, evs ++ [Event.suite_error (if st2.error_buffer.isEmpty then
              "Test output ended unexpectedly"
            else String.intercalate "\n" st2.error_buffer)], false)) := by
  simp only [Runner.poll, hrun]
  cases finished <;> cases h : st2.error_buffer.isEmpty <;> simp [h]

/-- Witness for C3: an exited process with no output at all yields the
generic `suite_error` and stops polling. -/
theorem C3_witness :
    Runner.poll (Runner.initial 0) [] [] true =
      .ok (Runner.initial 0, [Event.suite_error "Test output ended unexpectedly"], false) := by
  have h := C3_exit_without_end_marker (Runner.initial 0) (Runner.initial 0) [] [] [] false rfl
  simpa using h

/-- Claim C4 (the code crashes, contrary to the claim): a record consisting
of a start frame directly followed by the end-of-results marker makes
`poll` raise `UnboundLocalError` (the loop variable `post` is never
assigned, `runner.py` line 218), and a marker arriving with an empty
record buffer makes `poll` raise `IndexError` (`self.buffer[0]` on an
empty list, line 195).  Neither input is handled as a no-op flush. -/
theorem C4_incomplete_record_crashes :
    Runner.poll (Runner.initial 1)
        [Line.marker .startResults, Line.json preW, Line.marker .endResults] [] false =
      .error .unboundLocal ∧
    Runner.poll (Runner.initial 1)
        [Line.marker .startResults, Line.marker .resultSep] [] false =
      .error .indexError := by
  refine ⟨by with_unfolding_all rfl, by with_unfolding_all rfl⟩

theorem ratTrunc_eq_floor (q : Rat) (h : 0 ≤ q) : ratTrunc q = ⌊q⌋ := by
  rw [Rat.floor_def]
  exact Int.tdiv_eq_ediv (Rat.num_nonneg.2 h) (Int.natCast_nonneg _)

theorem ratTrunc_eq_one (q : Rat) (h1 : 1 ≤ q) (h2 : q < 2) : ratTrunc q = 1 := by
  rw [ratTrunc_eq_floor q (le_trans zero_le_one h1)]
  refine Int.floor_eq_iff.2 ⟨by exact_mod_cast h1, by push_cast; linarith⟩

theorem format_remaining_hours (r : Rat) (h : 4800 < r) :
    format_remaining r = toString (ratTrunc (r / 2400)) ++ " hours" := by
  rw [format_remaining, if_pos h]

theorem format_remaining_one_hour (r : Rat) (h1 : 2400 < r) (h2 : r < 4800) :
    format_remaining r = "1 hour" := by
  have ht : ratTrunc (r / 2400) = 1 := by
    refine ratTrunc_eq_one _ ?_ ?_
    · rw [le_div_iff₀ (by norm_num)]; linarith
    · rw [div_lt_iff₀ (by norm_num)]; linarith
  rw [format_remaining, if_neg (by linarith), if_pos h1, ht]
  rfl

theorem format_remaining_mins (r : Rat) (h1 : 120 < r) (h2 : r ≤ 2400) :
    format_remaining r = toString (ratTrunc (r / 60)) ++ " mins" := by
  rw [format_remaining, if_neg (by linarith), if_neg (by linarith), if_pos h1]

theorem format_remaining_one_min (r : Rat) (h1 : 60 < r) (h2 : r < 120) :
    format_remaining r = "1 min" := by
  have ht : ratTrunc (r / 60) = 1 := by
    refine ratTrunc_eq_one _ ?_ ?_
    · rw [le_div_iff₀ (by norm_num)]; linarith
    · rw [div_lt_iff₀ (by norm_num)]; linarith
  rw [format_remaining, if_neg (by linarith), if_neg (by linarith), if_neg (by linarith),
    if_pos h1, ht]
  rfl

theorem format_remaining_seconds (r : Rat) (h : r ≤ 60) :
    format_remaining r = toString (ratTrunc r) ++ "s" := by
  rw [format_remaining, if_neg (by linarith), if_neg (by linarith), if_neg (by linarith),
    if_neg (by linarith)]

/-- Claim C5 (amended): the remaining-time estimate is
`(total_count - completed_count) * (end_time_of_last_test -
start_time_of_first_test) / completed_count`, formatted as an hours string
when remaining > 4800 s, a minutes string when remaining > 120 s, and a
seconds string when remaining ≤ 60 s; the string is literally `1 hour`
only for 2400 < remaining < 4800 (at exactly 4800 the code prints
`2 hour`) and literally `1 min` only for 60 < remaining < 120 (at exactly
120 the code prints `2 min`).  Concretely: 5000 s → `2 hours`,
3000 s → `1 hour`, 150 s → `2 mins`, 90 s → `1 min`, 30 s → `30s`. -/
theorem C5_remaining_time_formatting :
    (∀ (total completed : Nat) (startFirst endLast : Rat),
      remaining_estimate total completed startFirst endLast =
        format_remaining (((total : Rat) - (completed : Rat)) *
          ((endLast - startFirst) / (completed : Rat)))) ∧
    (∀ r : Rat, 4800 < r → format_remaining r = toString (ratTrunc (r / 2400)) ++ " hours") ∧
    (∀ r : Rat, 2400 < r → r < 4800 → format_remaining r = "1 hour") ∧
    (∀ r : Rat, 120 < r → r ≤ 2400 → format_remaining r = toString (ratTrunc (r / 60)) ++ " mins") ∧
    (∀ r : Rat, 60 < r → r < 120 → format_remaining r = "1 min") ∧
    (∀ r : Rat, r ≤ 60 → format_remaining r = toString (ratTrunc r) ++ "s") ∧
    format_remaining 5000 = "2 hours" ∧ format_remaining 3000 = "1 hour" ∧
    format_remaining 150 = "2 mins" ∧ format_remaining 90 = "1 min" ∧
    format_remaining 30 = "30s" :=
  ⟨fun _ _ _ _ => rfl, format_remaining_hours, format_remaining_one_hour,
    format_remaining_mins, format_remaining_one_min, format_remaining_seconds,
    by with_unfolding_all rfl, by with_unfolding_all rfl, by with_unfolding_all rfl,
    by with_unfolding_all rfl, by with_unfolding_all rfl⟩

/-- Witness for C5: the minutes bucket applied at 150 s. -/
theorem C5_witness :
    format_remaining 150 = toString (ratTrunc ((150 : Rat) / 60)) ++ " mins" :=
  C5_remaining_time_formatting.2.2.2.1 150 (by norm_num) (by norm_num)

/-- Counterexample to C5 as stated: a remaining time of exactly 120 s
satisfies `remaining > 60` and not `remaining > 120`, yet the formatted
string is `2 min`, not a `1 min` string; likewise exactly 4800 s satisfies
`remaining > 2400` and not `remaining > 4800`, yet formats as `2 hour`. -/
theorem C5_counterexample_boundaries :
    format_remaining 120 = "2 min" ∧ format_remaining 120 ≠ "1 min" ∧
    format_remaining 4800 = "2 hour" ∧ format_remaining 4800 ≠ "1 hour" ∧
    (60 : Rat) < 120 ∧ ¬ ((120 : Rat) > 120) ∧
    (2400 : Rat) < 4800 ∧ ¬ ((4800 : Rat) > 4800) := by
  refine ⟨by with_unfolding_all rfl, ?_, by with_unfolding_all rfl, ?_, by norm_num,
    by norm_num, by norm_num, by norm_num⟩
  · intro h
    have : "2 min" = "1 min" := by
      rw [← h]; with_unfolding_all rfl
    simp at this
  · intro h
    have : "2 hour" = "1 hour" := by
      rw [← h]; with_unfolding_all rfl
    simp at this

/-! ## The active-flag cascade of `model.py` (TestMethod/TestCase/TestModule)

The hierarchy is embedded at the depth the claim quantifies over: one
`TestModule` (whose parent is the `Project`, with the no-op
`Project._update_active`, `model.py` lines 532-535) containing `TestCase`
children, each containing `TestMethod` children.  Only the `_active` flags
are relevant to the cascade, so a method is its flag, and dict iteration
order over children is the list order.  `emit` calls do not touch this
state and are dropped here. -/

/-- A `TestCase`: its `_active` flag and the `_active` flags of the
`TestMethod` children it owns. -/
structure CaseA where
  active : Bool
  methods : List Bool
  deriving DecidableEq, Repr

instance : Inhabited CaseA := ⟨⟨true, []⟩⟩

/-- A `TestModule` (parented by the `Project`): its `_active` flag and its
`TestCase` children. -/
structure ModuleA where
  active : Bool
  cases : List CaseA
  deriving DecidableEq, Repr

/-- From `TestMethod.set_active(is_active, cascade=False)` (`model.py` lines
99-115): the guards only suppress redundant transitions; with
`cascade=False` no parent update happens, so the resulting flag is all
that remains. -/
def methodSetActiveNC (m isA : Bool) : Bool :=
  if m then (if isA = false then false else m)
  else (if isA then true else m)

/-- From `TestCase.set_active(is_active, cascade=False)` (`model.py` lines
222-242): guarded transition of the case's own flag, no parent update
(`cascade` is false), then the unconditional downward loop over the owned
methods with `cascade=False`. -/
def caseSetActiveNC (c : CaseA) (isA : Bool) : CaseA :=
  if c.active then
    if isA = false then
      { active := false, methods := c.methods.map (fun m => methodSetActiveNC m false) }
    else c
  else
    if isA then
      { active := true, methods := c.methods.map (fun m => methodSetActiveNC m true) }
    else c

/-- From `TestModule.set_active(is_active, cascade=True)` (`model.py` lines
338-358) for a module whose parent is the `Project`: the parent update
`Project._update_active` is `pass`, then the downward loop over the owned
cases with `cascade=False`. -/
def moduleSetActive (mo : ModuleA) (isA : Bool) : ModuleA :=
  if mo.active then
    if isA = false then
      { active := false, cases := mo.cases.map (fun c => caseSetActiveNC c false) }
    else mo
  else
    if isA then
      { active := true, cases := mo.cases.map (fun c => caseSetActiveNC c true) }
    else mo

/-- From `TestModule._update_active` (`model.py` lines 411-418): if any child is
active, `set_active(True)`, else `set_active(False)`. -/
def moduleUpdateActive (mo : ModuleA) : ModuleA :=
  if mo.cases.any (fun c => c.active) then moduleSetActive mo true
  else moduleSetActive mo false

/-- From `TestCase.set_active(is_active, cascade=True)` on the case at index `i`
of its parent module (`model.py` lines 222-242): guarded transition of the
case's flag, then `self.parent._update_active()` (the module recomputes),
then the downward loop over the case's methods with `cascade=False` —
in that source order. -/
def caseSetActiveC (mo : ModuleA) (i : Nat) (isA : Bool) : ModuleA :=
  let c := mo.cases.getD i default
  if c.active then
    if isA = false then
      let mo1 := { mo with cases := mo.cases.set i { c with active := false } }
      let mo2 := moduleUpdateActive mo1
      let c2 := mo2.cases.getD i default
      let c2x := { c2 with methods := c2.methods.map (fun m => methodSetActiveNC m false) }
      { mo2 with cases := mo2.cases.set i c2x }
    else mo
  else
    if isA then
      let mo1 := { mo with cases := mo.cases.set i { c with active := true } }
      let mo2 := moduleUpdateActive mo1
      let c2 := mo2.cases.getD i default
      let c2x := { c2 with methods := c2.methods.map (fun m => methodSetActiveNC m true) }
      { mo2 with cases := mo2.cases.set i c2x }
    else mo

/-- From `TestCase._update_active` (`model.py` lines 285-292) for the case at
index `i`: if any owned method is active, `set_active(True)`, else
`set_active(False)`. -/
def caseUpdateActive (mo : ModuleA) (i : Nat) : ModuleA :=
  if (mo.cases.getD i default).methods.any id then caseSetActiveC mo i true
  else caseSetActiveC mo i false

/-- From `TestMethod.set_active(is_active, cascade=True)` on method `j` of the
case at index `i` (`model.py` lines 99-115): guarded flag transition, then
`self.parent._update_active()` (the case recomputes). -/
def methodSetActiveC (mo : ModuleA) (i j : Nat) (isA : Bool) : ModuleA :=
  let c := mo.cases.getD i default
  let m := c.methods.getD j true
  if m then
    if isA = false then
      let cx := { c with methods := c.methods.set j false }
      let mo1 := { mo with cases := mo.cases.set i cx }
      caseUpdateActive mo1 i
    else mo
  else
    if isA then
      let cx := { c with methods := c.methods.set j true }
      let mo1 := { mo with cases := mo.cases.set i cx }
      caseUpdateActive mo1 i
    else mo

/-- The aggregate-active invariant of the hierarchy (spec §3): a container
is active exactly when some child is active. -/
def ActiveWF (mo : ModuleA) : Prop :=
  mo.active = mo.cases.any (fun c => c.active) ∧
  ∀ c ∈ mo.cases, c.active = c.methods.any id

/-! ### List helpers for indexed updates -/

theorem listGetD_set_self {α : Type} :
    ∀ (l : List α) (i : Nat) (x d : α), i < l.length → (l.set i x).getD i d = x := by
  intro l
  induction l with
  | nil => intro i x d h; cases h
  | cons a l ih =>
    intro i x d h
    cases i with
    | zero => rfl
    | succ i => exact ih i x d (Nat.lt_of_succ_lt_succ h)

theorem listMem_set_self {α : Type} :
    ∀ (l : List α) (i : Nat) (x : α), i < l.length → x ∈ l.set i x := by
  intro l
  induction l with
  | nil => intro i x h; cases h
  | cons a l ih =>
    intro i x h
    cases i with
    | zero => exact List.mem_cons_self _ _
    | succ i => exact List.mem_cons_of_mem a (ih i x (Nat.lt_of_succ_lt_succ h))

theorem listGetD_mem {α : Type} :
    ∀ (l : List α) (i : Nat) (d : α), i < l.length → l.getD i d ∈ l := by
  intro l
  induction l with
  | nil => intro i d h; cases h
  | cons a l ih =>
    intro i d h
    cases i with
    | zero => exact List.mem_cons_self _ _
    | succ i => exact List.mem_cons_of_mem a (ih i d (Nat.lt_of_succ_lt_succ h))

theorem listAny_set_congr {α : Type} :
    ∀ (l : List α) (i : Nat) (x y : α) (p : α → Bool), p x = p y →
      (l.set i x).any p = (l.set i y).any p := by
  intro l
  induction l with
  | nil => intro i x y p h; rfl
  | cons a l ih =>
    intro i x y p h
    cases i with
    | zero => simp [List.any_cons, h]
    | succ i => simp [List.any_cons, ih i x y p h]

theorem listGetD_map {α : Type} :
    ∀ (l : List α) (i : Nat) (d : α) (f : α → α), i < l.length →
      (l.map f).getD i d = f (l.getD i d) := by
  intro l
  induction l with
  | nil => intro i d f h; cases h
  | cons a l ih =>
    intro i d f h
    cases i with
    | zero => rfl
    | succ i => exact ih i d f (Nat.lt_of_succ_lt_succ h)

theorem methodSetActiveNC_false (m : Bool) : methodSetActiveNC m false = false := by
  cases m <;> rfl

theorem caseSetActiveNC_inactive (c : CaseA) (h : c.active = false) :
    caseSetActiveNC c false = c := by
  simp [caseSetActiveNC, h]

theorem caseSetActiveNC_active (c : CaseA) (h : c.active = true) :
    caseSetActiveNC c true = c := by
  simp [caseSetActiveNC, h]


/-- Reactivating one inactive method of an inactive case turns the case and
the module active again: the embedding of
`TestMethod.set_active(True)` → `TestCase._update_active` →
`TestCase.set_active(True)` → `TestModule._update_active` →
`TestModule.set_active(True)`. -/
theorem methodReactivate_spec (mo1 : ModuleA) (i j : Nat)
    (hi : i < mo1.cases.length)
    (hj : j < (mo1.cases.getD i default).methods.length)
    (hcase : (mo1.cases.getD i default).active = false)
    (hmeth : (mo1.cases.getD i default).methods.getD j true = false) :
    ((methodSetActiveC mo1 i j true).cases.getD i default).active = true ∧
    (methodSetActiveC mo1 i j true).active = true := by
  have hCx : ({ mo1.cases.getD i default with methods := (mo1.cases.getD i default).methods.set j true } : CaseA).active = false := hcase
  have h1 : methodSetActiveC mo1 i j true = caseUpdateActive { mo1 with cases := mo1.cases.set i { mo1.cases.getD i default with methods := (mo1.cases.getD i default).methods.set j true } } i := by
    simp only [methodSetActiveC]
    rw [hmeth]
    simp
  rw [h1]
  have hget1 : ({ mo1 with cases := mo1.cases.set i { mo1.cases.getD i default with methods := (mo1.cases.getD i default).methods.set j true } } : ModuleA).cases.getD i default = { mo1.cases.getD i default with methods := (mo1.cases.getD i default).methods.set j true } :=
    listGetD_set_self _ _ _ _ hi
  have hany1 : (({ mo1.cases.getD i default with methods := (mo1.cases.getD i default).methods.set j true } : CaseA).methods).any id = true :=
    List.any_eq_true.2 ⟨true, listMem_set_self _ j true hj, rfl⟩
  rw [caseUpdateActive, hget1, hany1, if_pos rfl]
  have h3 : caseSetActiveC { mo1 with cases := mo1.cases.set i { mo1.cases.getD i default with methods := (mo1.cases.getD i default).methods.set j true } } i true =
      (let mo2 := moduleUpdateActive { mo1 with cases := mo1.cases.set i { mo1.cases.getD i default with active := true, methods := (mo1.cases.getD i default).methods.set j true } }
      let c2 := mo2.cases.getD i default
      let c2x := { c2 with methods := c2.methods.map (fun m => methodSetActiveNC m true) }
      { mo2 with cases := mo2.cases.set i c2x }) := by
    simp only [caseSetActiveC, hget1, hCx, Bool.false_eq_true, if_false, if_true, List.set_set]
  rw [h3]
  have hanyM2 : (mo1.cases.set i { mo1.cases.getD i default with active := true, methods := (mo1.cases.getD i default).methods.set j true }).any (fun c => c.active) = true :=
    List.any_eq_true.2 ⟨_, listMem_set_self _ i _ hi, rfl⟩
  simp only [moduleUpdateActive, hanyM2, if_true]
  by_cases hma : mo1.active = true
  · have hms : moduleSetActive { mo1 with cases := mo1.cases.set i { mo1.cases.getD i default with active := true, methods := (mo1.cases.getD i default).methods.set j true } } true = { mo1 with cases := mo1.cases.set i { mo1.cases.getD i default with active := true, methods := (mo1.cases.getD i default).methods.set j true } } := by
      simp [moduleSetActive, hma]
    rw [hms]
    refine ⟨?_, hma⟩
    have hb : i < (mo1.cases.set i { mo1.cases.getD i default with active := true, methods := (mo1.cases.getD i default).methods.set j true }).length := by
      simpa using hi
    rw [listGetD_set_self _ _ _ _ hb, listGetD_set_self _ _ _ _ hi]
  · have hma' : mo1.active = false := by
      cases h : mo1.active
      · rfl
      · exact absurd h hma
    have hms : moduleSetActive { mo1 with cases := mo1.cases.set i { mo1.cases.getD i default with active := true, methods := (mo1.cases.getD i default).methods.set j true } } true = { active := true, cases := (mo1.cases.set i { mo1.cases.getD i default with active := true, methods := (mo1.cases.getD i default).methods.set j true }).map (fun c => caseSetActiveNC c true) } := by
      simp [moduleSetActive, hma']
    rw [hms]
    refine ⟨?_, rfl⟩
    have hb0 : i < (mo1.cases.set i { mo1.cases.getD i default with active := true, methods := (mo1.cases.getD i default).methods.set j true }).length := by
      simpa using hi
    have hb : i < ((mo1.cases.set i { mo1.cases.getD i default with active := true, methods := (mo1.cases.getD i default).methods.set j true }).map (fun c => caseSetActiveNC c true)).length := by
      simpa using hi
    rw [listGetD_set_self _ _ _ _ hb, listGetD_map _ _ _ _ hb0, listGetD_set_self _ _ _ _ hi, caseSetActiveNC_active _ rfl]

/-- From `TestCase.set_active(False)` on the case at index `i`, from a state
satisfying the aggregate invariant: the case and all its methods become
inactive, and the module's flag equals the recomputed aggregate of its
cases. -/
theorem caseDeactivate_spec (mo : ModuleA) (i : Nat)
    (hi : i < mo.cases.length)
    (hwf : ActiveWF mo) :
    ((caseSetActiveC mo i false).cases.getD i default).active = false ∧
    (∀ m ∈ ((caseSetActiveC mo i false).cases.getD i default).methods, m = false) ∧
    (caseSetActiveC mo i false).active = (caseSetActiveC mo i false).cases.any (fun c => c.active) ∧
    (caseSetActiveC mo i false).cases.length = mo.cases.length ∧
    ((caseSetActiveC mo i false).cases.getD i default).methods.length = (mo.cases.getD i default).methods.length := by
  obtain ⟨hwf1, hwf2⟩ := hwf
  by_cases hca : (mo.cases.getD i default).active = true
  · have hmo : mo.active = true := by
      rw [hwf1]
      exact List.any_eq_true.2 ⟨_, listGetD_mem _ _ _ hi, hca⟩
    have h1 : caseSetActiveC mo i false = (let mo2 := moduleUpdateActive { mo with cases := mo.cases.set i { mo.cases.getD i default with active := false } }
        let c2 := mo2.cases.getD i default
        let c2x := { c2 with methods := c2.methods.map (fun m => methodSetActiveNC m false) }
        { mo2 with cases := mo2.cases.set i c2x }) := by
      simp only [caseSetActiveC]
      rw [hca]
      simp
    rw [h1]
    have hset : (mo.cases.set i { mo.cases.getD i default with active := false }).getD i default = { mo.cases.getD i default with active := false } :=
      listGetD_set_self _ _ _ _ hi
    by_cases hb : (mo.cases.set i { mo.cases.getD i default with active := false }).any (fun c => c.active) = true
    · have h2 : moduleUpdateActive { mo with cases := mo.cases.set i { mo.cases.getD i default with active := false } } = { mo with cases := mo.cases.set i { mo.cases.getD i default with active := false } } := by
        simp only [moduleUpdateActive]
        rw [hb]
        simp [moduleSetActive, hmo]
      rw [h2]
      simp only [hset, List.set_set]
      have hib : i < (mo.cases.set i { mo.cases.getD i default with active := false, methods := (mo.cases.getD i default).methods.map (fun m => methodSetActiveNC m false) }).length := by
        simpa using hi
      refine ⟨?_, ?_, ?_, by simp, ?_⟩
      · rw [listGetD_set_self _ _ _ _ hi]
      · rw [listGetD_set_self _ _ _ _ hi]
        intro m hm
        obtain ⟨m0, _, rfl⟩ := List.mem_map.1 hm
        exact methodSetActiveNC_false m0
      · rw [hmo]
        have hcong := listAny_set_congr mo.cases i { active := false, methods := (mo.cases.getD i default).methods.map (fun m => methodSetActiveNC m false) } { mo.cases.getD i default with active := false } (fun c => c.active) rfl
        rw [hcong, hb]
      · rw [listGetD_set_self _ _ _ _ hi]
        simp
    · have hbf : (mo.cases.set i { mo.cases.getD i default with active := false }).any (fun c => c.active) = false := by
        cases h : (mo.cases.set i { mo.cases.getD i default with active := false }).any (fun c => c.active)
        · rfl
        · exact absurd h hb
      have hall : ∀ c ∈ mo.cases.set i { mo.cases.getD i default with active := false }, c.active = false := by
        intro c hc
        have := List.any_eq_false.1 hbf c hc
        simpa using this
      have hmap : (mo.cases.set i { mo.cases.getD i default with active := false }).map (fun c => caseSetActiveNC c false) = mo.cases.set i { mo.cases.getD i default with active := false } := by
        rw [List.map_congr_left (fun c hc => caseSetActiveNC_inactive c (hall c hc))]
        exact List.map_id _
      have h2 : moduleUpdateActive { mo with cases := mo.cases.set i { mo.cases.getD i default with active := false } } = { active := false, cases := mo.cases.set i { mo.cases.getD i default with active := false } } := by
        simp only [moduleUpdateActive]
        rw [hbf]
        simp only [Bool.false_eq_true, if_false, moduleSetActive, hmo, eq_self_iff_true, if_true]
        rw [hmap]
      rw [h2]
      simp only [hset, List.set_set]
      refine ⟨?_, ?_, ?_, by simp, ?_⟩
      · rw [listGetD_set_self _ _ _ _ hi]
      · rw [listGetD_set_self _ _ _ _ hi]
        intro m hm
        obtain ⟨m0, _, rfl⟩ := List.mem_map.1 hm
        exact methodSetActiveNC_false m0
      · have hcong := listAny_set_congr mo.cases i { active := false, methods := (mo.cases.getD i default).methods.map (fun m => methodSetActiveNC m false) } { mo.cases.getD i default with active := false } (fun c => c.active) rfl
        rw [hcong, hbf]
      · rw [listGetD_set_self _ _ _ _ hi]
        simp
  · have hca' : (mo.cases.getD i default).active = false := by
      cases h : (mo.cases.getD i default).active
      · rfl
      · exact absurd h hca
    have h0 : caseSetActiveC mo i false = mo := by
      simp only [caseSetActiveC]
      rw [hca']
      simp
    rw [h0]
    refine ⟨hca', ?_, hwf1, rfl, rfl⟩
    intro m hm
    have hc := hwf2 _ (listGetD_mem _ i default hi)
    rw [hca'] at hc
    have := List.any_eq_false.1 hc.symm m hm
    simpa using this

/-- Claim C6: from a state satisfying the aggregate-active invariant,
`TestCase.set_active(False)` on the case at index `i` leaves the case
inactive with every owned `TestMethod` inactive and the parent
`TestModule`'s flag equal to the recomputed aggregate of its cases;
afterwards `TestMethod.set_active(True)` on any single method `j` of that
case makes the case and its ancestor module active again. -/
theorem C6_case_deactivation_cascade (mo : ModuleA) (i j : Nat)
    (hi : i < mo.cases.length)
    (hj : j < (mo.cases.getD i default).methods.length)
    (hwf : ActiveWF mo) :
    ((caseSetActiveC mo i false).cases.getD i default).active = false ∧
    (∀ m ∈ ((caseSetActiveC mo i false).cases.getD i default).methods, m = false) ∧
    (caseSetActiveC mo i false).active = (caseSetActiveC mo i false).cases.any (fun c => c.active) ∧
    ((methodSetActiveC (caseSetActiveC mo i false) i j true).cases.getD i default).active = true ∧
    (methodSetActiveC (caseSetActiveC mo i false) i j true).active = true := by
  obtain ⟨ha, hb, hc, hlen, hmlen⟩ := caseDeactivate_spec mo i hi hwf
  have hi1 : i < (caseSetActiveC mo i false).cases.length := by rw [hlen]; exact hi
  have hj1 : j < ((caseSetActiveC mo i false).cases.getD i default).methods.length := by
    rw [hmlen]; exact hj
  have hmeth : ((caseSetActiveC mo i false).cases.getD i default).methods.getD j true = false :=
    hb _ (listGetD_mem _ j true hj1)
  obtain ⟨hd, he⟩ := methodReactivate_spec (caseSetActiveC mo i false) i j hi1 hj1 ha hmeth
  exact ⟨ha, hb, hc, hd, he⟩

/-- A concrete module: two cases, every node active. -/
def caseX : CaseA := { active := true, methods := [true, true] }

/-- A second concrete case. -/
def caseY : CaseA := { active := true, methods := [true] }

/-- A module owning `caseX` and `caseY`. -/
def moXY : ModuleA := { active := true, cases := [caseX, caseY] }

/-- Witness for C6 at a concrete two-case module (case 0, method 1). -/
theorem C6_witness :
    ((caseSetActiveC moXY 0 false).cases.getD 0 default).active = false ∧
    (∀ m ∈ ((caseSetActiveC moXY 0 false).cases.getD 0 default).methods, m = false) ∧
    (caseSetActiveC moXY 0 false).active = (caseSetActiveC moXY 0 false).cases.any (fun c => c.active) ∧
    ((methodSetActiveC (caseSetActiveC moXY 0 false) 0 1 true).cases.getD 0 default).active = true ∧
    (methodSetActiveC (caseSetActiveC moXY 0 false) 0 1 true).active = true :=
  C6_case_deactivation_cascade moXY 0 1 (by decide) (by decide) ⟨by decide, by decide⟩

/-! ## The node lifecycle of `model.py` (`confirm_exists` / `refresh` / `_purge`)

Children dicts are embedded as association lists in insertion order
(Python dict assignment to an existing key keeps its position, a new key
is appended).  `_purge` iterates `self.items()` while popping, which is
embedded as a filter over a snapshot of the children (the Python 2 list
semantics of `items()`, under which the module's purge behaves as the
code and its docstrings describe).  `Project.confirm_exists` walks an
arbitrary chain of modules (`parts[:-2]`); the claims quantify over
three-segment paths `a.b.c`, for which that chain has exactly one module,
so the hierarchy is instantiated at that depth: labels of other lengths
(other than the guarded `< 2` case, which the source answers uniformly)
are out of scope of this embedding and leave the state unchanged. -/

/-- A `TestMethod` node: its lifecycle `timestamp` (`None` when
`confirm_exists` ran with the default argument). -/
structure TestMethodT where
  timestamp : Option Nat
  deriving DecidableEq, Repr

/-- A `TestCase` node: its `TestMethod` children keyed by name. -/
structure TestCaseT where
  methods : List (String × TestMethodT)
  deriving DecidableEq, Repr

/-- A `TestModule` node: its `TestCase` children keyed by name. -/
structure TestModuleT where
  cases : List (String × TestCaseT)
  deriving DecidableEq, Repr

/-- The `Project` root: its `TestModule` children keyed by name. -/
structure ProjectT where
  modules : List (String × TestModuleT)
  deriving DecidableEq, Repr

/-- Python dict lookup `d[k]` on the association list (first match). -/
def alGet {α : Type} : List (String × α) → String → Option α
  | [], _ => none
  | (k, v) :: t, key => if k = key then some v else alGet t key

/-- Python dict assignment `d[k] = v`: replace in place, else append. -/
def alSet {α : Type} : List (String × α) → String → α → List (String × α)
  | [], key, v => [(key, v)]
  | (k, w) :: t, key, v => if k = key then (k, v) :: t else (k, w) :: alSet t key v

/-- Map over the values of the children dict, keeping keys and order. -/
def mapValues {α β : Type} (f : α → β) (l : List (String × α)) : List (String × β) :=
  l.map (fun kv => (kv.1, f kv.2))

/-- From `Project.confirm_exists(test_label, timestamp)` (`model.py` lines
484-513) on the already-split label: fewer than two parts returns `None`
without touching the hierarchy; a three-part path `[a, b, c]` walks/creates
module `a`, case `b` and method `c` (creation inserts the node into the
parent dict, as the node constructors do), then restamps the method with
the given timestamp and returns it. -/
def confirm_exists_parts (p : ProjectT) (parts : List String) (ts : Option Nat) :
    Option TestMethodT × ProjectT :=
  if parts.length < 2 then (none, p)
  else
    match parts with
    | [a, b, c] =>
      let mo := (alGet p.modules a).getD { cases := [] }
      let ca := (alGet mo.cases b).getD { methods := [] }
      let me : TestMethodT := { timestamp := ts }
      let ca2 := { ca with methods := alSet ca.methods c me }
      let mo2 := { mo with cases := alSet mo.cases b ca2 }
      (some me, { p with modules := alSet p.modules a mo2 })
    | _ => (none, p)

/-- From `Project.confirm_exists` on a dotted label. -/
def ProjectT.confirm_exists (p : ProjectT) (label : String) (ts : Option Nat) :
    Option TestMethodT × ProjectT :=
  confirm_exists_parts p (label.splitOn ".") ts

/-- From `TestCase._purge(timestamp)` (`model.py` lines 277-283): drop every
method whose timestamp differs from the refresh timestamp. -/
def TestCaseT.purge (ca : TestCaseT) (ts : Option Nat) : TestCaseT :=
  { methods := ca.methods.filter (fun m => m.2.timestamp = ts) }

/-- From `TestModule._purge(timestamp)` (`model.py` lines 402-409): purge each
case, then drop the cases that became empty. -/
def TestModuleT.purge (mo : TestModuleT) (ts : Option Nat) : TestModuleT :=
  { cases := (mapValues (fun ca => TestCaseT.purge ca ts) mo.cases).filter
      (fun ca => !ca.2.methods.isEmpty) }

/-- From `Project.refresh(test_list)` (`model.py` lines 515-530): stamp a fresh
timestamp (`datetime.now()`, modelled by the parameter `now`), run
`confirm_exists` for every label, then purge every module and drop the
modules that became empty. -/
def ProjectT.refresh (p : ProjectT) (test_list : List String) (now : Nat) : ProjectT :=
  let p1 := test_list.foldl
    (fun acc label => (ProjectT.confirm_exists acc label (some now)).2) p
  { modules := (mapValues (fun mo => TestModuleT.purge mo (some now)) p1.modules).filter
      (fun mo => !mo.2.cases.isEmpty) }

/-- The method node reachable at path `a.b.c`, if any. -/
def findMethodT (p : ProjectT) (a b c : String) : Option TestMethodT :=
  match alGet p.modules a with
  | none => none
  | some mo =>
    match alGet mo.cases b with
    | none => none
    | some ca => alGet ca.methods c

/-- Claim C9: a test label with fewer than two dot-separated segments makes
`Project.confirm_exists` return `None` and leaves the hierarchy unchanged
(`model.py` lines 490-492). -/
theorem C9_short_label_no_node (p : ProjectT) (label : String) (ts : Option Nat)
    (h : (label.splitOn ".").length < 2) :
    ProjectT.confirm_exists p label ts = (none, p) := by
  simp [ProjectT.confirm_exists, confirm_exists_parts, h]

/-- Witness for C9: a dot-free label on a nonempty project. -/
theorem C9_witness :
    ProjectT.confirm_exists
        { modules := [("m", { cases := [("C", { methods := [("t", { timestamp := none })] })] })] }
        "abc" none =
      (none,
        { modules := [("m", { cases := [("C", { methods := [("t", { timestamp := none })] })] })] }) :=
  C9_short_label_no_node _ "abc" none (by
    have hs : "abc".splitOn "." = ["abc"] := by with_unfolding_all rfl
    rw [hs]
    decide)

/-! ### Association-list lemmas -/

theorem alGet_alSet_self {α : Type} :
    ∀ (l : List (String × α)) (k : String) (v : α), alGet (alSet l k v) k = some v := by
  intro l
  induction l with
  | nil => intro k v; simp [alSet, alGet]
  | cons kv t ih =>
    intro k v
    by_cases h : kv.1 = k
    · simp [alSet, alGet, h]
    · simp [alSet, alGet, h, ih]

theorem alGet_alSet_ne {α : Type} :
    ∀ (l : List (String × α)) (k k' : String) (v : α), k ≠ k' →
      alGet (alSet l k v) k' = alGet l k' := by
  intro l
  induction l with
  | nil => intro k k' v h; simp [alSet, alGet, h]
  | cons kv t ih =>
    intro k k' v h
    by_cases h1 : kv.1 = k
    · simp [alSet, alGet, h1]
      rw [if_neg (h1 ▸ h), if_neg (h1 ▸ h)]
    · simp only [alSet, if_neg h1, alGet]
      by_cases h2 : kv.1 = k'
      · rw [if_pos h2, if_pos h2]
      · rw [if_neg h2, if_neg h2]
        exact ih k k' v h

theorem alSet_alSet {α : Type} :
    ∀ (l : List (String × α)) (k : String) (v w : α),
      alSet (alSet l k v) k w = alSet l k w := by
  intro l
  induction l with
  | nil => intro k v w; simp [alSet]
  | cons kv t ih =>
    intro k v w
    by_cases h : kv.1 = k
    · simp [alSet, h]
    · simp [alSet, h, ih]

theorem alGet_mem {α : Type} :
    ∀ (l : List (String × α)) (k : String) (v : α), alGet l k = some v → (k, v) ∈ l := by
  intro l
  induction l with
  | nil => intro k v h; cases h
  | cons kv t ih =>
    obtain ⟨k1, v1⟩ := kv
    intro k v h
    rw [alGet] at h
    by_cases h1 : k1 = k
    · rw [if_pos h1] at h
      cases h
      subst h1
      exact List.mem_cons_self _ _
    · rw [if_neg h1] at h
      exact List.mem_cons_of_mem _ (ih k v h)

theorem alGet_none_of_not_mem_keys {α : Type} :
    ∀ (l : List (String × α)) (k : String), k ∉ l.map Prod.fst → alGet l k = none := by
  intro l
  induction l with
  | nil => intro k _; rfl
  | cons kv t ih =>
    obtain ⟨k1, v1⟩ := kv
    intro k h
    simp only [List.map_cons, List.mem_cons] at h
    push_neg at h
    rw [alGet, if_neg (fun he => h.1 he.symm)]
    exact ih k h.2

theorem mem_keys_alSet {α : Type} :
    ∀ (l : List (String × α)) (k k' : String) (v : α),
      k' ∈ (alSet l k v).map Prod.fst ↔ k' ∈ l.map Prod.fst ∨ k' = k := by
  intro l
  induction l with
  | nil =>
    intro k k' v
    simp only [alSet, List.map_cons, List.map_nil, List.mem_singleton, List.mem_nil_iff]
    constructor
    · intro h; exact Or.inr h
    · rintro (h | h)
      · cases h
      · exact h
  | cons kv t ih =>
    obtain ⟨k1, v1⟩ := kv
    intro k k' v
    by_cases h : k1 = k
    · subst h
      simp only [alSet]
      rw [if_pos trivial]
      simp only [List.map_cons, List.mem_cons]
      tauto
    · simp only [alSet]
      rw [if_neg h]
      simp only [List.map_cons, List.mem_cons, ih]
      tauto

theorem keys_alSet_nodup {α : Type} :
    ∀ (l : List (String × α)) (k : String) (v : α),
      (l.map Prod.fst).Nodup → ((alSet l k v).map Prod.fst).Nodup := by
  intro l
  induction l with
  | nil => intro k v _; simp [alSet]
  | cons kv t ih =>
    obtain ⟨k1, v1⟩ := kv
    intro k v hnd
    simp only [List.map_cons, List.nodup_cons] at hnd
    by_cases h : k1 = k
    · subst h
      simp only [alSet]
      rw [if_pos trivial]
      simp only [List.map_cons, List.nodup_cons]
      exact hnd
    · simp only [alSet]
      rw [if_neg h]
      simp only [List.map_cons, List.nodup_cons]
      refine ⟨?_, ih k v hnd.2⟩
      rw [mem_keys_alSet]
      rintro (hm | rfl)
      · exact hnd.1 hm
      · exact h rfl

theorem keys_mapValues {α β : Type} (f : α → β) (l : List (String × α)) :
    (mapValues f l).map Prod.fst = l.map Prod.fst := by
  induction l with
  | nil => rfl
  | cons kv t ih =>
    simp only [mapValues, List.map_cons] at ih ⊢
    rw [ih]

theorem alGet_mapValues {α β : Type} (f : α → β) :
    ∀ (l : List (String × α)) (k : String),
      alGet (mapValues f l) k = (alGet l k).map f := by
  intro l
  induction l with
  | nil => intro k; rfl
  | cons kv t ih =>
    obtain ⟨k1, v1⟩ := kv
    intro k
    by_cases h : k1 = k
    · simp [mapValues, alGet, h]
    · simp only [mapValues, List.map_cons, alGet, if_neg h]
      exact ih k

theorem keys_filter_subset {α : Type} (l : List (String × α)) (q : String × α → Bool)
    (k : String) (h : k ∈ (l.filter q).map Prod.fst) : k ∈ l.map Prod.fst := by
  obtain ⟨x, hx, rfl⟩ := List.mem_map.1 h
  exact List.mem_map.2 ⟨x, List.mem_of_mem_filter hx, rfl⟩

theorem alGet_filter {α : Type} :
    ∀ (l : List (String × α)) (q : String × α → Bool) (k : String),
      (l.map Prod.fst).Nodup →
      alGet (l.filter q) k = (match alGet l k with
        | some v => if q (k, v) then some v else none
        | none => none) := by
  intro l
  induction l with
  | nil => intro q k _; rfl
  | cons kv t ih =>
    obtain ⟨k1, v1⟩ := kv
    intro q k hnd
    simp only [List.map_cons, List.nodup_cons] at hnd
    by_cases h : k1 = k
    · subst h
      rw [alGet, if_pos rfl]
      by_cases hq : q (k1, v1) = true
      · rw [List.filter_cons_of_pos hq, alGet, if_pos rfl]
        simp [hq]
      · have hq' : q (k1, v1) = false := by
          cases hqq : q (k1, v1)
          · rfl
          · exact absurd hqq hq
        rw [List.filter_cons_of_neg (by simp [hq']),
          alGet_none_of_not_mem_keys _ _ (fun hm => hnd.1 (keys_filter_subset t q k1 hm))]
        simp [hq']
    · rw [alGet, if_neg h]
      by_cases hq : q (k1, v1) = true
      · rw [List.filter_cons_of_pos hq, alGet, if_neg h]
        exact ih q k hnd.2
      · have hq' : q (k1, v1) = false := by
          cases hqq : q (k1, v1)
          · rfl
          · exact absurd hqq hq
        rw [List.filter_cons_of_neg (by simp [hq'])]
        exact ih q k hnd.2

theorem mem_alSet {α : Type} :
    ∀ (l : List (String × α)) (k : String) (v : α) (x : String × α),
      x ∈ alSet l k v → x ∈ l ∨ x = (k, v) := by
  intro l
  induction l with
  | nil =>
    intro k v x hx
    simp only [alSet, List.mem_singleton] at hx
    exact Or.inr hx
  | cons kv t ih =>
    obtain ⟨k1, v1⟩ := kv
    intro k v x hx
    by_cases h : k1 = k
    · subst h
      simp only [alSet] at hx
      rw [if_pos trivial] at hx
      rcases List.mem_cons.1 hx with rfl | hm
      · exact Or.inr rfl
      · exact Or.inl (List.mem_cons_of_mem _ hm)
    · simp only [alSet] at hx
      rw [if_neg h] at hx
      rcases List.mem_cons.1 hx with rfl | hm
      · exact Or.inl (List.mem_cons_self _ _)
      · rcases ih k v x hm with h1 | h1
        · exact Or.inl (List.mem_cons_of_mem _ h1)
        · exact Or.inr h1

/-- The three-part evaluation of `confirm_exists_parts`. -/
theorem confirm_exists_parts_three (p : ProjectT) (a b c : String) (ts : Option Nat) :
    confirm_exists_parts p [a, b, c] ts =
      (some { timestamp := ts },
        { modules := alSet p.modules a
            { cases := alSet ((alGet p.modules a).getD { cases := [] }).cases b
                { methods := alSet ((alGet ((alGet p.modules a).getD { cases := [] }).cases b).getD { methods := [] }).methods c { timestamp := ts } } } }) := by
  simp [confirm_exists_parts]

/-- After `confirm_exists` on `a.b.c`, the method node at `a.b.c` carries
the given timestamp. -/
theorem findMethodT_ce_self (p : ProjectT) (a b c : String) (ts : Option Nat) :
    findMethodT (confirm_exists_parts p [a, b, c] ts).2 a b c = some { timestamp := ts } := by
  rw [confirm_exists_parts_three]
  simp [findMethodT, alGet_alSet_self]

/-- A second `confirm_exists` call with the same path and timestamp returns
the same node and leaves the hierarchy unchanged (identity stability, no
duplicate nodes). -/
theorem ce_idempotent (p : ProjectT) (a b c : String) (ts : Option Nat) :
    confirm_exists_parts (confirm_exists_parts p [a, b, c] ts).2 [a, b, c] ts =
      ((confirm_exists_parts p [a, b, c] ts).1, (confirm_exists_parts p [a, b, c] ts).2) := by
  rw [confirm_exists_parts_three]
  rw [confirm_exists_parts_three]
  simp [alGet_alSet_self, alSet_alSet]

/-- Running `confirm_exists` on any path other than `a.b.c` does not change the
node reachable at `a.b.c`. -/
theorem findMethodT_ce_other (p : ProjectT) (parts : List String) (ts : Option Nat)
    (a b c : String) (hne : parts ≠ [a, b, c]) :
    findMethodT (confirm_exists_parts p parts ts).2 a b c = findMethodT p a b c := by
  rcases parts with _ | ⟨x, _ | ⟨y, _ | ⟨z, _ | ⟨w, r⟩⟩⟩⟩
  · simp [confirm_exists_parts]
  · simp [confirm_exists_parts]
  · simp [confirm_exists_parts]
  · -- the [x, y, z] case
    rw [confirm_exists_parts_three]
    by_cases hxa : x = a
    · subst hxa
      by_cases hyb : y = b
      · subst hyb
        have hzc : z ≠ c := by
          intro h
          exact hne (by rw [h])
        simp only [findMethodT, alGet_alSet_self]
        cases hmo : alGet p.modules x with
        | none =>
          simp only [Option.getD_none, Option.getD_some]
          rw [alGet_alSet_ne _ z c _ hzc]
          rfl
        | some mo =>
          simp only [Option.getD_some]
          cases hca : alGet mo.cases y with
          | none =>
            simp only [Option.getD_none]
            rw [alGet_alSet_ne _ z c _ hzc]
            rfl
          | some ca =>
            simp only [Option.getD_some]
            rw [alGet_alSet_ne _ z c _ hzc]
      · simp only [findMethodT, alGet_alSet_self]
        cases hmo : alGet p.modules x with
        | none =>
          simp only [Option.getD_none]
          rw [alGet_alSet_ne _ y b _ hyb]
          rfl
        | some mo =>
          simp only [Option.getD_some]
          rw [alGet_alSet_ne _ y b _ hyb]
    · simp only [findMethodT]
      rw [alGet_alSet_ne _ x a _ hxa]
  · -- length ≥ 4: falls to the default arm
    simp [confirm_exists_parts]

/-- Key uniqueness at every level of the hierarchy (Python dicts cannot
hold duplicate keys). -/
def TreeWF (p : ProjectT) : Prop :=
  (p.modules.map Prod.fst).Nodup ∧
  ∀ m ∈ p.modules, (m.2.cases.map Prod.fst).Nodup ∧
    ∀ ca ∈ m.2.cases, (ca.2.methods.map Prod.fst).Nodup

theorem TreeWF_ce (p : ProjectT) (parts : List String) (ts : Option Nat)
    (h : TreeWF p) : TreeWF (confirm_exists_parts p parts ts).2 := by
  rcases parts with _ | ⟨x, _ | ⟨y, _ | ⟨z, _ | ⟨w, r⟩⟩⟩⟩
  · simpa [confirm_exists_parts] using h
  · simpa [confirm_exists_parts] using h
  · simpa [confirm_exists_parts] using h
  · rw [confirm_exists_parts_three]
    obtain ⟨h1, h2⟩ := h
    have hmowf : ((((alGet p.modules x).getD { cases := [] }).cases.map Prod.fst).Nodup ∧
        ∀ ca ∈ ((alGet p.modules x).getD { cases := [] }).cases,
          (ca.2.methods.map Prod.fst).Nodup) := by
      cases hmo : alGet p.modules x with
      | none => simp
      | some mo =>
        simp only [Option.getD_some]
        exact h2 (x, mo) (alGet_mem _ _ _ hmo)
    have hcawf : ((((alGet ((alGet p.modules x).getD { cases := [] }).cases y).getD
        { methods := [] }).methods.map Prod.fst).Nodup) := by
      cases hca : alGet ((alGet p.modules x).getD { cases := [] }).cases y with
      | none => simp
      | some ca =>
        simp only [Option.getD_some]
        exact hmowf.2 (y, ca) (alGet_mem _ _ _ hca)
    refine ⟨keys_alSet_nodup _ _ _ h1, ?_⟩
    intro m hm
    rcases mem_alSet _ _ _ _ hm with hold | rfl
    · exact h2 m hold
    · refine ⟨keys_alSet_nodup _ _ _ hmowf.1, ?_⟩
      intro ca hca
      rcases mem_alSet _ _ _ _ hca with hold | rfl
      · exact hmowf.2 ca hold
      · exact keys_alSet_nodup _ _ _ hcawf
  · simpa [confirm_exists_parts] using h

theorem TreeWF_ce_label (p : ProjectT) (label : String) (ts : Option Nat)
    (h : TreeWF p) : TreeWF (ProjectT.confirm_exists p label ts).2 :=
  TreeWF_ce p (label.splitOn ".") ts h

theorem TreeWF_fold (now : Nat) :
    ∀ (tl : List String) (p : ProjectT), TreeWF p →
      TreeWF (tl.foldl (fun acc label => (ProjectT.confirm_exists acc label (some now)).2) p) := by
  intro tl
  induction tl with
  | nil => intro p h; exact h
  | cons l tl ih =>
    intro p h
    exact ih _ (TreeWF_ce_label p l (some now) h)

theorem findMethodT_fold_other (now : Nat) (a b c : String) :
    ∀ (tl : List String) (p : ProjectT), (∀ l ∈ tl, l.splitOn "." ≠ [a, b, c]) →
      findMethodT (tl.foldl (fun acc label => (ProjectT.confirm_exists acc label (some now)).2) p) a b c =
        findMethodT p a b c := by
  intro tl
  induction tl with
  | nil => intro p _; rfl
  | cons l tl ih =>
    intro p h
    rw [List.foldl_cons, ih _ (fun x hx => h x (List.mem_cons_of_mem l hx))]
    exact findMethodT_ce_other p (l.splitOn ".") (some now) a b c (h l (List.mem_cons_self l tl))

theorem findMethodT_fold_mem (now : Nat) (a b c : String) :
    ∀ (tl : List String) (p : ProjectT), (∃ l ∈ tl, l.splitOn "." = [a, b, c]) →
      findMethodT (tl.foldl (fun acc label => (ProjectT.confirm_exists acc label (some now)).2) p) a b c =
        some { timestamp := some now } := by
  intro tl
  induction tl with
  | nil =>
    intro p h
    obtain ⟨l, hl, _⟩ := h
    cases hl
  | cons l tl ih =>
    intro p h
    rw [List.foldl_cons]
    by_cases hex : ∃ x ∈ tl, x.splitOn "." = [a, b, c]
    · exact ih _ hex
    · have hl : l.splitOn "." = [a, b, c] := by
        obtain ⟨x, hx, hsp⟩ := h
        rcases List.mem_cons.1 hx with rfl | hxm
        · exact hsp
        · exact absurd ⟨x, hxm, hsp⟩ hex
      have hpres : ∀ x ∈ tl, x.splitOn "." ≠ [a, b, c] := by
        intro x hx
        intro hsp
        exact hex ⟨x, hx, hsp⟩
      rw [findMethodT_fold_other now a b c tl _ hpres]
      show findMethodT (confirm_exists_parts p (l.splitOn ".") (some now)).2 a b c = _
      rw [hl]
      exact findMethodT_ce_self p a b c (some now)

/-- The purge sweep of `refresh` (`model.py` lines 525-528), characterized:
the method at `a.b.c` survives exactly when it exists and carries the
fresh timestamp; dropped methods take their emptied cases and modules
with them. -/
theorem findMethodT_sweep (q : ProjectT) (now : Nat) (a b c : String) (hwf : TreeWF q) :
    findMethodT { modules := (mapValues (fun mo => TestModuleT.purge mo (some now)) q.modules).filter (fun mo => !mo.2.cases.isEmpty) } a b c =
      (match findMethodT q a b c with
        | some me => if me.timestamp = some now then some me else none
        | none => none) := by
  obtain ⟨h1, h2⟩ := hwf
  have hndm : ((mapValues (fun mo => TestModuleT.purge mo (some now)) q.modules).map Prod.fst).Nodup := by
    rw [keys_mapValues]
    exact h1
  simp only [findMethodT]
  rw [alGet_filter _ _ _ hndm, alGet_mapValues]
  cases hmo : alGet q.modules a with
  | none => rfl
  | some mo =>
    obtain ⟨hnodc, hcam⟩ := h2 (a, mo) (alGet_mem _ _ _ hmo)
    simp only [Option.map_some']
    by_cases hk : (TestModuleT.purge mo (some now)).cases.isEmpty = true
    · rw [hk]
      simp only [Bool.not_true, Bool.false_eq_true, if_false]
      cases hca : alGet mo.cases b with
      | none => rfl
      | some ca =>
        cases hme : alGet ca.methods c with
        | none => simp [hme]
        | some me =>
          by_cases hf : me.timestamp = some now
          · exfalso
            have hmem : (c, me) ∈ ca.methods := alGet_mem _ _ _ hme
            have hkeep : (c, me) ∈ ca.methods.filter (fun m => m.2.timestamp = some now) :=
              List.mem_filter.2 ⟨hmem, by simp [hf]⟩
            have hcamem : (b, ca) ∈ mo.cases := alGet_mem _ _ _ hca
            have hmv : (b, TestCaseT.purge ca (some now)) ∈
                mapValues (fun ca => TestCaseT.purge ca (some now)) mo.cases :=
              List.mem_map.2 ⟨(b, ca), hcamem, rfl⟩
            have hcne : (TestCaseT.purge ca (some now)).methods ≠ [] :=
              List.ne_nil_of_mem hkeep
            have hmem2 : (b, TestCaseT.purge ca (some now)) ∈ (TestModuleT.purge mo (some now)).cases := by
              refine List.mem_filter.2 ⟨hmv, ?_⟩
              simp only [Bool.not_eq_true']
              rw [← Bool.not_eq_true]
              intro hemp
              exact hcne (List.isEmpty_iff.1 hemp)
            rw [List.isEmpty_iff] at hk
            rw [hk] at hmem2
            cases hmem2
          · simp [hme, hf]
    · have hk' : (!(TestModuleT.purge mo (some now)).cases.isEmpty) = true := by
        cases h : (TestModuleT.purge mo (some now)).cases.isEmpty
        · rfl
        · exact absurd h hk
      rw [if_pos hk']
      have hndc : ((mapValues (fun ca => TestCaseT.purge ca (some now)) mo.cases).map Prod.fst).Nodup := by
        rw [keys_mapValues]
        exact hnodc
      show (match alGet (TestModuleT.purge mo (some now)).cases b with
          | none => none
          | some ca => alGet ca.methods c) = _
      rw [show (TestModuleT.purge mo (some now)).cases =
        (mapValues (fun ca => TestCaseT.purge ca (some now)) mo.cases).filter
          (fun ca => !ca.2.methods.isEmpty) from rfl]
      rw [alGet_filter _ _ _ hndc, alGet_mapValues]
      cases hca : alGet mo.cases b with
      | none => rfl
      | some ca =>
        have hndme := hcam (b, ca) (alGet_mem _ _ _ hca)
        simp only [Option.map_some']
        by_cases hkc : (TestCaseT.purge ca (some now)).methods.isEmpty = true
        · rw [hkc]
          simp only [Bool.not_true, Bool.false_eq_true, if_false]
          cases hme : alGet ca.methods c with
          | none => simp [hme]
          | some me =>
            by_cases hf : me.timestamp = some now
            · exfalso
              have hmem : (c, me) ∈ ca.methods := alGet_mem _ _ _ hme
              have hkeep : (c, me) ∈ ca.methods.filter (fun m => m.2.timestamp = some now) :=
                List.mem_filter.2 ⟨hmem, by simp [hf]⟩
              rw [List.isEmpty_iff] at hkc
              have : (TestCaseT.purge ca (some now)).methods = [] := hkc
              rw [show (TestCaseT.purge ca (some now)).methods =
                ca.methods.filter (fun m => m.2.timestamp = some now) from rfl] at this
              rw [this] at hkeep
              cases hkeep
            · simp [hme, hf]
        · have hkc' : (!(TestCaseT.purge ca (some now)).methods.isEmpty) = true := by
            cases h : (TestCaseT.purge ca (some now)).methods.isEmpty
            · rfl
            · exact absurd h hkc
          rw [if_pos hkc']
          show alGet (TestCaseT.purge ca (some now)).methods c = _
          rw [show (TestCaseT.purge ca (some now)).methods =
            ca.methods.filter (fun m => m.2.timestamp = some now) from rfl]
          rw [alGet_filter _ _ _ hndme]
          cases hme : alGet ca.methods c with
          | none => simp [hme]
          | some me => simp [hme]

/-- After any `refresh`, every surviving module has at least one case and
every surviving case at least one method (now-empty containers are
recursively removed). -/
theorem refresh_containers (q : ProjectT) (tl : List String) (now : Nat) :
    ∀ m ∈ (ProjectT.refresh q tl now).modules,
      m.2.cases.isEmpty = false ∧ ∀ ca ∈ m.2.cases, ca.2.methods.isEmpty = false := by
  intro m hm
  simp only [ProjectT.refresh] at hm
  have h1 := List.mem_filter.1 hm
  refine ⟨by simpa using h1.2, ?_⟩
  intro ca hca
  obtain ⟨kv, _, rfl⟩ := List.mem_map.1 h1.1
  have h2 := List.mem_filter.1 hca
  simpa using h2.2

/-- Claim C7: for a dotted path `a.b.c`, a second `confirm_exists` call
returns the identical `TestMethod` node with the hierarchy unchanged (no
duplicate nodes); the node persists through any `refresh` whose test list
contains the path (restamped with the fresh timestamp); a `refresh` whose
test list omits the path purges it for its stale timestamp; and the sweep
recursively removes now-empty cases and modules. -/
theorem C7_confirm_exists_lifecycle (p : ProjectT) (label : String) (a b c : String)
    (ts : Option Nat) (tl : List String) (now : Nat)
    (hsplit : label.splitOn "." = [a, b, c])
    (hwf : TreeWF p) :
    ProjectT.confirm_exists (ProjectT.confirm_exists p label ts).2 label ts =
      ((ProjectT.confirm_exists p label ts).1, (ProjectT.confirm_exists p label ts).2) ∧
    findMethodT (ProjectT.confirm_exists p label ts).2 a b c = some { timestamp := ts } ∧
    ((∃ l ∈ tl, l.splitOn "." = [a, b, c]) →
      findMethodT (ProjectT.refresh (ProjectT.confirm_exists p label ts).2 tl now) a b c =
        some { timestamp := some now }) ∧
    ((∀ l ∈ tl, l.splitOn "." ≠ [a, b, c]) → ts ≠ some now →
      findMethodT (ProjectT.refresh (ProjectT.confirm_exists p label ts).2 tl now) a b c = none) ∧
    (∀ m ∈ (ProjectT.refresh (ProjectT.confirm_exists p label ts).2 tl now).modules,
      m.2.cases.isEmpty = false ∧ ∀ ca ∈ m.2.cases, ca.2.methods.isEmpty = false) := by
  have hce : ProjectT.confirm_exists p label ts = confirm_exists_parts p [a, b, c] ts := by
    rw [ProjectT.confirm_exists, hsplit]
  have hwfp : TreeWF (ProjectT.confirm_exists p label ts).2 := TreeWF_ce_label p label ts hwf
  have hwf1 : TreeWF (tl.foldl (fun acc l => (ProjectT.confirm_exists acc l (some now)).2)
      (ProjectT.confirm_exists p label ts).2) := TreeWF_fold now tl _ hwfp
  have hrefresh : ProjectT.refresh (ProjectT.confirm_exists p label ts).2 tl now =
      { modules := (mapValues (fun mo => TestModuleT.purge mo (some now))
          (tl.foldl (fun acc l => (ProjectT.confirm_exists acc l (some now)).2)
            (ProjectT.confirm_exists p label ts).2).modules).filter
              (fun mo => !mo.2.cases.isEmpty) } := rfl
  refine ⟨?_, ?_, ?_, ?_, ?_⟩
  · rw [hce]
    show confirm_exists_parts _ (label.splitOn ".") ts = _
    rw [hsplit]
    exact ce_idempotent p a b c ts
  · rw [hce]
    exact findMethodT_ce_self p a b c ts
  · intro hex
    rw [hrefresh, findMethodT_sweep _ now a b c hwf1,
      findMethodT_fold_mem now a b c tl _ hex]
    simp
  · intro hall hne
    rw [hrefresh, findMethodT_sweep _ now a b c hwf1,
      findMethodT_fold_other now a b c tl _ hall, hce, findMethodT_ce_self]
    simp [hne]
  · exact refresh_containers _ tl now

/-- Witness for C7: the path `a.b.c` on an empty project, then a refresh
listing only `x.y.z`. -/
theorem C7_witness :
    ProjectT.confirm_exists (ProjectT.confirm_exists (⟨[]⟩ : ProjectT) "a.b.c" none).2 "a.b.c" none =
      ((ProjectT.confirm_exists (⟨[]⟩ : ProjectT) "a.b.c" none).1,
        (ProjectT.confirm_exists (⟨[]⟩ : ProjectT) "a.b.c" none).2) ∧
    findMethodT (ProjectT.confirm_exists (⟨[]⟩ : ProjectT) "a.b.c" none).2 "a" "b" "c" =
      some { timestamp := none } ∧
    findMethodT (ProjectT.refresh (ProjectT.confirm_exists (⟨[]⟩ : ProjectT) "a.b.c" none).2
      ["x.y.z"] 5) "a" "b" "c" = none := by
  have h := C7_confirm_exists_lifecycle ⟨[]⟩ "a.b.c" "a" "b" "c" none ["x.y.z"] 5
    (by with_unfolding_all rfl) ⟨by simp, by simp⟩
  refine ⟨h.1, h.2.1, h.2.2.2.1 ?_ ?_⟩
  · intro l hl
    have hlx : l = "x.y.z" := by simpa using hl
    subst hlx
    have hs : "x.y.z".splitOn "." = ["x", "y", "z"] := by with_unfolding_all rfl
    rw [hs]
    decide
  · decide

/-! ## The frame encoder of `pipes.py` (`PipedTestResult`) -/

/-- A test object as the encoder sees it: its `id()` (dotted label) and the
description that the `description` helper computes for it (the docstring
trimming of `_trim_docstring` is abstracted into this field). -/
structure PyTest where
  tid : String
  desc : String
  deriving DecidableEq, Repr

/-- The encoder state (`pipes.py` lines 25-40): the `_first` flag, the
`_current_test` slot, and the captured-stdout buffer `_stdout`. -/
structure PipedState where
  first : Bool
  current_test : Option PyTest
  captured : String
  deriving DecidableEq, Repr

/-- One line written to the result stream by the encoder. -/
inductive OutLine where
  | startMarker
  | sepMarker
  | startFrame (path : String) (start_time : Rat)
  | finishFrame (status : String) (end_time : Rat) (description : String)
      (error : Option String) (output : String)
  deriving DecidableEq, Repr

/-- Python list indexing with one negative-index wraparound. -/
def pyIdx {α : Type} (l : List α) (i : Int) : Option α :=
  if 0 ≤ i then l.get? i.toNat
  else if 0 ≤ (l.length : Int) + i then l.get? ((l.length : Int) + i).toNat
  else none

/-- The old-discovery path computation of `startTest` (`pipes.py` lines
96-99): `parts.index('tests')` raises `ValueError` when absent, and the
indexing `parts[tests_index - 1]`, `parts[-2]`, `parts[-1]` raises
`IndexError` when out of range. -/
def oldDiscoveryPath (tid : String) : Except PyError String :=
  let parts := tid.splitOn "."
  match parts.findIdx? (fun s => s = "tests") with
  | none => .error .valueError
  | some ti =>
    match pyIdx parts ((ti : Int) - 1), pyIdx parts (-2), pyIdx parts (-1) with
    | some x, some y, some z => .ok (x ++ "." ++ y ++ "." ++ z)
    | _, _, _ => .error .indexError

/-- From `PipedTestResult.startTest` (`pipes.py` lines 84-113): record the new
current test, reset the capture buffer, compute the path, then write the
start-of-results marker on the very first frame (clearing `_first`) or the
record separator otherwise, followed by the start frame
`{path, start_time}`. -/
def startTest (st : PipedState) (useOldDiscovery : Bool) (t : PyTest) (now : Rat) :
    Except PyError (PipedState × List OutLine) :=
  let st1 : PipedState := { st with current_test := some t, captured := "" }
  match (if useOldDiscovery then oldDiscoveryPath t.tid else .ok t.tid) with
  | .error e => .error e
  | .ok path =>
    if st1.first then
      .ok ({ st1 with first := false }, [OutLine.startMarker, OutLine.startFrame path now])
    else
      .ok (st1, [OutLine.sepMarker, OutLine.startFrame path now])

/-- From `PipedTestResult.addError` (`pipes.py` lines 132-154): if no test is
current (the error occurred during setup), call `startTest` first so the
protocol stays well formed; then write the `'E'` finish frame with the
traceback text and captured output, and clear the current test. -/
def addError (st : PipedState) (useOldDiscovery : Bool) (t : PyTest) (err : String)
    (nowStart nowEnd : Rat) : Except PyError (PipedState × List OutLine) :=
  match (if st.current_test = none then startTest st useOldDiscovery t nowStart
         else .ok (st, [])) with
  | .error e => .error e
  | .ok (st1, pre) =>
    .ok ({ st1 with current_test := none },
      pre ++ [OutLine.finishFrame "E" nowEnd t.desc (some err) st1.captured])

/-- Claim C8: when `addError` runs while no test is current, the encoder
first synthesizes and writes a start frame for the failing test via
`startTest` — a marker line followed by `{path, start_time}` — before the
`'E'` finish frame, so the finish frame has a matching start frame. -/
theorem C8_addError_synthesizes_start (st : PipedState) (useOldDiscovery : Bool)
    (t : PyTest) (err : String) (n1 n2 : Rat) (path : String)
    (hct : st.current_test = none)
    (hpath : (if useOldDiscovery then oldDiscoveryPath t.tid else .ok t.tid) =
      Except.ok path) :
    addError st useOldDiscovery t err n1 n2 =
      .ok ({ first := false, current_test := none, captured := "" },
        (if st.first then [OutLine.startMarker] else [OutLine.sepMarker]) ++
          [OutLine.startFrame path n1, OutLine.finishFrame "E" n2 t.desc (some err) ""]) := by
  rw [addError, if_pos hct, startTest, hpath]
  cases hf : st.first <;> simp [hf]

/-- Witness for C8: a setup error with no current test, first frame of the
run. -/
theorem C8_witness :
    addError { first := true, current_test := none, captured := "" } false
        { tid := "m.C.t1", desc := "d" } "boom" 1 2 =
      .ok ({ first := false, current_test := none, captured := "" },
        [OutLine.startMarker, OutLine.startFrame "m.C.t1" 1,
          OutLine.finishFrame "E" 2 "d" (some "boom") ""]) := by
  have h := C8_addError_synthesizes_start { first := true, current_test := none, captured := "" }
    false { tid := "m.C.t1", desc := "d" } "boom" 1 2 "m.C.t1" rfl rfl
  simpa using h

/-! ## The event mixin of `events.py` (`EventSource`) -/

/-- The outcome of calling one bound handler. -/
inductive HandlerOutcome where
  | ok
  | raisesKeyError
  | raisesOther
  deriving DecidableEq, Repr

/-- How one `emit` call ends: a normal return, or a propagated non-KeyError
exception; either way, the ids of the handlers that were actually called,
in order. -/
inductive EmitResult where
  | normal (invoked : List Nat)
  | raised (invoked : List Nat)
  deriving DecidableEq, Repr

/-- The handler loop of `emit` (`events.py` lines 31-36), running inside
`try ... except KeyError: pass`: each handler is called in registration
order; a handler that raises `KeyError` ends the call normally (the
exception is caught by the surrounding handler-absence guard), and any
other exception propagates. -/
def runHandlers (acc : List Nat) : List (Nat × HandlerOutcome) → EmitResult
  | [] => .normal acc
  | (i, HandlerOutcome.ok) :: t => runHandlers (acc ++ [i]) t
  | (i, HandlerOutcome.raisesKeyError) :: _ => .normal (acc ++ [i])
  | (i, HandlerOutcome.raisesOther) :: _ => .raised (acc ++ [i])

/-- From `EventSource.emit` (`events.py` lines 24-36) for the dynamic class's
event table: a missing event (or class) raises `KeyError` in the lookup,
caught by the same `except` — no handler runs; otherwise the handlers run
in order under the `try`. -/
def emit (events : List (String × List (Nat × HandlerOutcome))) (event : String) : EmitResult :=
  match alGet events event with
  | none => .normal []
  | some handlers => runHandlers [] handlers

theorem runHandlers_keyError :
    ∀ (pre : List (Nat × HandlerOutcome)) (acc : List Nat) (k : Nat)
      (post : List (Nat × HandlerOutcome)), (∀ h ∈ pre, h.2 = HandlerOutcome.ok) →
      runHandlers acc (pre ++ (k, HandlerOutcome.raisesKeyError) :: post) =
        .normal (acc ++ pre.map Prod.fst ++ [k]) := by
  intro pre
  induction pre with
  | nil => intro acc k post _; simp [runHandlers]
  | cons h t ih =>
    intro acc k post hok
    obtain ⟨i, o⟩ := h
    have ho : o = HandlerOutcome.ok := hok (i, o) (List.mem_cons_self _ _)
    subst ho
    rw [List.cons_append, runHandlers,
      ih (acc ++ [i]) k post (fun x hx => hok x (List.mem_cons_of_mem _ hx))]
    simp

/-- Claim C10: if a handler bound to the emitted event raises `KeyError`
during `emit`, the exception is silently swallowed — `emit` ends normally —
and the handlers registered after it for that event are not invoked: the
called handlers are exactly those before it plus the raising one. -/
theorem C10_keyError_swallowed (events : List (String × List (Nat × HandlerOutcome)))
    (event : String) (pre post : List (Nat × HandlerOutcome)) (k : Nat)
    (hlook : alGet events event = some (pre ++ (k, HandlerOutcome.raisesKeyError) :: post))
    (hpre : ∀ h ∈ pre, h.2 = HandlerOutcome.ok) :
    emit events event = .normal (pre.map Prod.fst ++ [k]) := by
  rw [emit, hlook]
  simpa using runHandlers_keyError pre [] k post hpre

/-- Witness for C10: three handlers, the middle one raising `KeyError`;
the third is never called. -/
theorem C10_witness :
    emit [("ping", [(1, HandlerOutcome.ok), (2, HandlerOutcome.raisesKeyError),
      (3, HandlerOutcome.ok)])] "ping" = .normal [1, 2] := by
  have h := C10_keyError_swallowed
    [("ping", [(1, HandlerOutcome.ok), (2, HandlerOutcome.raisesKeyError), (3, HandlerOutcome.ok)])]
    "ping" [(1, HandlerOutcome.ok)] [(3, HandlerOutcome.ok)] 2 rfl (by decide)
  simpa using h
